import Mathlib

/-!
Shallow embedding of the event-acquisition and
dispatch pipeline, together with proofs about it.

The repository holds two parallel implementations: the current workspace
crates (src/crates/twitch-bot, src/crates/twitch-sdk) and a legacy root tree
(src/src).  Where the two trees disagree (notably Role::contains), both are
embedded, the legacy one under a RoleLegacy prefix.

Conventions of the embedding:
- Rust u8 bitmasks become Nat values (all constructed values fit in 8 bits;
  the bit operations used, AND and OR, never overflow).
- Rust strings become List Char (abbrev Str below); string literals are
  written via String.data.
- Fallible Rust functions returning anyhow::Result become Except String.
- The async dispatcher is embedded as a small-step transition relation on an
  explicit state (see ConsumerState / ConsumerStep).
-/

abbrev Str := List Char

/-- Unicode White_Space predicate, as used by the Rust char::is_whitespace function
(the code points of the White_Space property). -/
def isWs (c : Char) : Bool :=
  let n := c.toNat
  (9 ≤ n && n ≤ 13) || n == 32 || n == 133 || n == 160 || n == 5760 ||
  (8192 ≤ n && n ≤ 8202) || n == 8232 || n == 8233 || n == 8239 ||
  n == 8287 || n == 12288

/-- Split a character list at every character satisfying p, keeping empty
pieces, as the Rust str::split method does.  The result is always non-empty. -/
def splitOnPred (p : Char → Bool) : Str → List Str
  | [] => [[]]
  | c :: rest =>
    let r := splitOnPred p rest
    if p c then [] :: r
    else
      match r with
      | [] => [[c]]
      | t :: ts => (c :: t) :: ts

/-- Rust str::split(sep) for a single separator character. -/
def splitOnChar (sep : Char) (s : Str) : List Str :=
  splitOnPred (fun c => c == sep) s

/-- Rust str::split_whitespace: the maximal non-whitespace runs of the
string, i.e. splitting on whitespace and dropping the empty pieces. -/
def splitWs (s : Str) : List Str :=
  (splitOnPred isWs s).filter (fun t => !t.isEmpty)

/-- Rust str::split_once(sep): split at the first occurrence of sep, or
none when sep does not occur. -/
def splitOnce (sep : Char) : Str → Option (Str × Str)
  | [] => none
  | c :: rest =>
    if c = sep then some ([], rest)
    else (splitOnce sep rest).map (fun q => (c :: q.1, q.2))

/-! Domain data model, from src/crates/twitch-bot/src/domain/models.rs. -/

inductive Platform where
  | Twitch
  | Console
deriving DecidableEq, Repr

inductive Currency where
  | Usd
  | Euro
  | Rub
  | Bits
deriving Repr

structure User where
  id : Str
  display_name : Str
  platform : Platform
  role : Nat

inductive EventKind where
  | ChatMessage (text : Str)
  | Command (name : Str) (args : List Str)
  | RewardRedemption (reward_id : Str) (reward_title : Str) (cost : Nat)
      (user_input : Option Str)
  | Donation (amount : Float) (currency : Currency) (message : Option Str)
  | System (message : Str)

structure EventContext where
  user : User
  channel : Option Str

structure Event where
  ctx : EventContext
  kind : EventKind

/-! Role bitmask of the workspace crate
(src/crates/twitch-bot/src/domain/models.rs).  The constants are the
hierarchical composites built there by OR-ing the private single bits. -/

def Role.BIT_SUBSCRIBER : Nat := 1
def Role.BIT_VIP : Nat := 2
def Role.BIT_MODERATOR : Nat := 4
def Role.BIT_BROADCASTER : Nat := 8

def Role.PLEB : Nat := 0
def Role.SUBSCRIBER : Nat := Role.BIT_SUBSCRIBER
def Role.VIP : Nat := Role.BIT_VIP ||| Role.BIT_SUBSCRIBER
def Role.MODERATOR : Nat := Role.BIT_MODERATOR ||| Role.BIT_VIP ||| Role.BIT_SUBSCRIBER
def Role.BROADCASTER : Nat :=
  Role.BIT_BROADCASTER ||| Role.BIT_MODERATOR ||| Role.BIT_VIP ||| Role.BIT_SUBSCRIBER

/-- Role::contains of the workspace crate: (self.0 & other.0) == other.0. -/
def Role.contains (r other : Nat) : Bool := (r &&& other) == other

/-- Role::add of the workspace crate: self.0 |= other.0. -/
def Role.add (r other : Nat) : Nat := r ||| other

/-! Role bitmask of the legacy root tree (src/src/domain/models.rs).  The
constant values coincide with those of the workspace crate, but contains(flag)
there tests (self.0 & flag) != 0 - an any-bit test, not an all-bits test. -/

def RoleLegacy.PLEB : Nat := 0
def RoleLegacy.SUBSCRIBER : Nat := 1
def RoleLegacy.VIP : Nat := 2 ||| RoleLegacy.SUBSCRIBER
def RoleLegacy.MODERATOR : Nat := 4 ||| RoleLegacy.VIP
def RoleLegacy.BROADCASTER : Nat := 8 ||| RoleLegacy.MODERATOR

/-- Role::contains of the legacy root tree: (self.0 & flag) != 0. -/
def RoleLegacy.contains (r flag : Nat) : Bool := (r &&& flag) != 0

/-! Chat-text reclassification, from impl From<&str> for EventKind in
src/crates/twitch-bot/src/domain/models.rs:

    text.strip_prefix('!')
        .filter(|s| !s.is_empty())
        .and_then(|rest| {
            let mut parts = rest.split_whitespace();
            parts.next().map(|name| EventKind::Command {
                name, args: parts.collect() })
        })
        .unwrap_or_else(|| EventKind::ChatMessage { text })
-/

def eventKindOfText (text : Str) : EventKind :=
  match text with
  | '!' :: rest =>
    if rest.isEmpty then .ChatMessage text
    else
      match splitWs rest with
      | [] => .ChatMessage text
      | name :: args => .Command name args
  | _ => .ChatMessage text

/-! TwitchRole of the SDK (src/crates/twitch-sdk/src/types.rs).  Unlike the
domain Role, its public constants are the four single bits. -/

def TwitchRole.SUBSCRIBER : Nat := 1
def TwitchRole.VIP : Nat := 2
def TwitchRole.MODERATOR : Nat := 4
def TwitchRole.BROADCASTER : Nat := 8

/-- TwitchRole::highest: the first set bit in priority order
BROADCASTER > MODERATOR > VIP > SUBSCRIBER, else 0. -/
def TwitchRole.highest (r : Nat) : Nat :=
  if r &&& TwitchRole.BROADCASTER != 0 then TwitchRole.BROADCASTER
  else if r &&& TwitchRole.MODERATOR != 0 then TwitchRole.MODERATOR
  else if r &&& TwitchRole.VIP != 0 then TwitchRole.VIP
  else if r &&& TwitchRole.SUBSCRIBER != 0 then TwitchRole.SUBSCRIBER
  else 0

/-- impl From<TwitchRole> for Role
(src/crates/twitch-bot/src/infra/fetchers/twitch_adapter.rs): match on
r.highest() against the four single-bit constants, defaulting to PLEB. -/
def roleOfTwitchRole (r : Nat) : Nat :=
  if TwitchRole.highest r = TwitchRole.BROADCASTER then Role.BROADCASTER
  else if TwitchRole.highest r = TwitchRole.MODERATOR then Role.MODERATOR
  else if TwitchRole.highest r = TwitchRole.VIP then Role.VIP
  else if TwitchRole.highest r = TwitchRole.SUBSCRIBER then Role.SUBSCRIBER
  else Role.PLEB

/-- Downward-closure invariant of the hierarchical Role constants: each
tier bit implies all lower tier bits. -/
def roleDownwardClosed (n : Nat) : Prop :=
  (n.testBit 3 = true → n.testBit 2 = true) ∧
  (n.testBit 2 = true → n.testBit 1 = true) ∧
  (n.testBit 1 = true → n.testBit 0 = true)

/-! Badge and tag parsing.  The SDK file src/crates/twitch-sdk/src/irc/parser.rs
works over the single-bit TwitchRole constants; the legacy-tree file
src/src/infra/fetchers/twitch_irc_parser.rs has the same control flow but
ORs in the composite domain Role constants (BROADCASTER = 15, VIP = 3), so
its bit-level results differ: a broadcaster badge also sets the moderator,
vip and subscriber bits there.  The SDK version is embedded as parse_badges
and parse_tags; the legacy parse_badges is embedded separately as
parse_badges_legacy. -/

/-- Loop body of parse_badges: one badge entry folded into the role
accumulator.  The source matches the entry against the guards
starts_with("broadcaster/") / ("vip/") / ("subscriber/") and ORs in the
corresponding TwitchRole constant; anything else is ignored. -/
def stepBadge (role : Nat) (badge : Str) : Nat :=
  if "broadcaster/".data.isPrefixOf badge then role ||| TwitchRole.BROADCASTER
  else if "vip/".data.isPrefixOf badge then role ||| TwitchRole.VIP
  else if "subscriber/".data.isPrefixOf badge then role ||| TwitchRole.SUBSCRIBER
  else role

/-- parse_badges: fold stepBadge over the comma-separated badge entries,
starting from TwitchRole::empty(). -/
def parse_badges (badges : Str) : Nat :=
  (splitOnChar ',' badges).foldl stepBadge 0

/-- Loop body of the legacy-tree parse_badges
(src/src/infra/fetchers/twitch_irc_parser.rs): the same three guards, but
the constants ORed in are the composite hierarchical Role constants of
src/src/domain/models.rs (BROADCASTER = 15, VIP = 3, SUBSCRIBER = 1). -/
def stepBadgeLegacy (role : Nat) (badge : Str) : Nat :=
  if "broadcaster/".data.isPrefixOf badge then role ||| RoleLegacy.BROADCASTER
  else if "vip/".data.isPrefixOf badge then role ||| RoleLegacy.VIP
  else if "subscriber/".data.isPrefixOf badge then role ||| RoleLegacy.SUBSCRIBER
  else role

/-- parse_badges of the legacy tree: fold stepBadgeLegacy over the
comma-separated badge entries, starting from Role::new() = 0. -/
def parse_badges_legacy (badges : Str) : Nat :=
  (splitOnChar ',' badges).foldl stepBadgeLegacy 0

/-- Result record of parse_tags (struct UserMeta in the source). -/
structure UserMeta where
  user_id : Str
  display_name : Str
  role : Nat
deriving DecidableEq, Repr

/-- Mutable locals of the parse_tags loop, as an explicit accumulator:
user_id, the display-name candidate, the login candidate, and the role. -/
structure TagsAcc where
  user_id : Str
  dn : Option Str
  login : Option Str
  role : Nat

/-- Loop body of parse_tags: one semicolon-separated pair folded into the
accumulator.  Pairs without '=' are skipped; the match arms are, in source
order: user-id, display-name (guard: value non-empty), login,
mod (guard: value "1"), subscriber (guard: value "1"), badges. -/
def stepTag (acc : TagsAcc) (pair : Str) : TagsAcc :=
  match splitOnce '=' pair with
  | none => acc
  | some (key, val) =>
    if key = "user-id".data then { acc with user_id := val }
    else if key = "display-name".data ∧ val ≠ [] then { acc with dn := some val }
    else if key = "login".data then { acc with login := some val }
    else if key = "mod".data ∧ val = "1".data then
      { acc with role := acc.role ||| TwitchRole.MODERATOR }
    else if key = "subscriber".data ∧ val = "1".data then
      { acc with role := acc.role ||| TwitchRole.SUBSCRIBER }
    else if key = "badges".data then { acc with role := acc.role ||| parse_badges val }
    else acc

/-- parse_tags: empty tag strings short-circuit to the defaults; otherwise
the pairs are folded and display_name falls back from the non-empty
display-name value to the login value to "anon". -/
def parse_tags (tags : Str) : UserMeta :=
  if tags = [] then ⟨"0".data, "anon".data, 0⟩
  else
    let acc := (splitOnChar ';' tags).foldl stepTag ⟨"0".data, none, none, 0⟩
    ⟨acc.user_id, ((acc.dn).or acc.login).getD "anon".data, acc.role⟩

/-- Value of a single tag pair under a given key: some val when the pair
splits at its first '=' into exactly that key, none otherwise.  Used to
state what the tag value of a key means. -/
def pairValue (key pair : Str) : Option Str :=
  match splitOnce '=' pair with
  | some (k, v) => if k = key then some v else none
  | none => none

/-- Value of a tag pair under a key, demanding a non-empty value. -/
def pairValueNE (key pair : Str) : Option Str :=
  match pairValue key pair with
  | some v => if v = [] then none else some v
  | none => none

/-- Last value carried by a key in a tags string (the loop in the source lets
later occurrences overwrite earlier ones). -/
def lastTagValue (key tags : Str) : Option Str :=
  ((splitOnChar ';' tags).reverse).findSome? (pairValue key)

/-- Last non-empty value carried by a key in a tags string. -/
def lastTagValueNE (key tags : Str) : Option Str :=
  ((splitOnChar ';' tags).reverse).findSome? (pairValueNE key)

/-! Router, from src/crates/twitch-bot/src/infra/consumer/router/router.rs. -/

inductive Route where
  | Message
  | Command
  | ChannelPointRedemption
  | Donation
deriving DecidableEq, Repr

/-- impl From<&Event> for Route: the route derived from the kind of the event. -/
def routeOfEvent (e : Event) : Route :=
  match e.kind with
  | .ChatMessage _ => .Message
  | .Command _ _ => .Command
  | .RewardRedemption _ _ _ _ => .ChannelPointRedemption
  | .Donation _ _ _ => .Donation
  | .System _ => .Message

/-- Handler capability: given an event, success or a descriptive failure. -/
def HandlerFn := Event → Except String Unit

/-- Route table of BaseRouter, the functional model of its HashMap. -/
def RouteTable := Route → Option HandlerFn

/-- BaseRouter::new: the empty route table. -/
def BaseRouter.new : RouteTable := fun _ => none

/-- BaseRouter::route: HashMap::insert, later insertions overriding. -/
def BaseRouter.route (t : RouteTable) (r : Route) (h : HandlerFn) : RouteTable :=
  fun q => if q = r then some h else t q

/-- Debug rendering of a Route, as used in the routing-error message. -/
def routeName : Route → String
  | .Message => "Message"
  | .Command => "Command"
  | .ChannelPointRedemption => "ChannelPointRedemption"
  | .Donation => "Donation"

/-- BaseRouter::handle: look the derived route up; run the handler when
present, otherwise report the routing error to the caller. -/
def BaseRouter.handle (t : RouteTable) (e : Event) : Except String Unit :=
  match t (routeOfEvent e) with
  | some h => h e
  | none => .error ("no handler for route: " ++ routeName (routeOfEvent e))

/-! Authorization middleware, from
src/src/infra/consumer/router/middleware/auth_middleware.rs, over the
legacy-tree Event::has_role (src/src/domain/models.rs), which uses the
legacy any-bit Role::contains. -/

/-- Event::has_role of the legacy tree: role.contains(required) with the
legacy any-bit contains. -/
def Event.has_role (e : Event) (required : Nat) : Bool :=
  RoleLegacy.contains e.ctx.user.role required

/-- Debug rendering of a Platform, as interpolated into the
permission-denied message. -/
def platformName : Platform → String
  | .Twitch => "Twitch"
  | .Console => "Console"

/-- make_permission_error: the permission-denied failure, naming the user
display name and platform. -/
def make_permission_error (u : User) : Except String Unit :=
  .error ("permission denied for " ++ String.mk u.display_name ++ " on "
    ++ platformName u.platform)

/-- AuthMiddleware::handle: short-circuit with the permission error when
has_role fails, otherwise return the result of the inner handler. -/
def AuthMiddleware.handle (role : Nat) (inner : HandlerFn) (e : Event) :
    Except String Unit :=
  if !(e.has_role role) then make_permission_error e.ctx.user
  else inner e

/-! EventSub subscriptions, from src/crates/twitch-sdk/src/eventsub/client.rs.
Each subscription helper POSTs a registration request and then branches on
response.status().is_success(); only the response-status branch is modelled
(the transport errors of send() propagate identically in both helpers). -/

/-- StatusCode::is_success of the HTTP library: 200 <= status < 300. -/
def isSuccessStatus (status : Nat) : Bool := 200 ≤ status && status < 300

/-- Tail of subscribe_to_rewards: Ok on a success status, otherwise an
error carrying the status and body. -/
def subscribe_to_rewards_result (status : Nat) (body : String) :
    Except String Unit :=
  if isSuccessStatus status then .ok ()
  else .error ("Failed to subscribe: " ++ toString status ++ " - " ++ body)

/-- Tail of subscribe_to_chat: Ok on every status; a non-success status
only appends a warning to the log (second component). -/
def subscribe_to_chat_result (status : Nat) (body : String) :
    Except String Unit × List String :=
  if isSuccessStatus status then (.ok (), [])
  else (.ok (), ["Failed to subscribe to chat: " ++ toString status ++ " - " ++ body])

/-! Token refresh background loop, from src/crates/twitch-sdk/src/auth.rs. -/

def REFRESH_BUFFER_SECS : Nat := 600
def RETRY_DELAY_SECS : Nat := 30
def MIN_SLEEP_SECS : Nat := 60

/-- Sleep computed by one iteration of start_background_loop from the
refresh outcome: expires_in.saturating_sub(REFRESH_BUFFER).max(MIN_SLEEP)
on success (Nat subtraction is saturating), the fixed retry delay on
failure.  The iteration returns a plain duration in both cases: the error
is logged, never propagated. -/
def refreshLoopSleepSecs : Except String Nat → Nat
  | .ok expires_in => max (expires_in - REFRESH_BUFFER_SECS) MIN_SLEEP_SECS
  | .error _ => RETRY_DELAY_SECS

/-! Bounded-concurrency dispatcher, from
src/crates/twitch-bot/src/infra/consumer/consumer.rs, as a small-step
transition relation.  BUFFER_SIZE is the permit count of the semaphore. -/

def BUFFER_SIZE : Nat := 30

/-- State of one consume(event_stream) run: the events still in the
channel (the channel closes when they are exhausted), the number of
spawned handler tasks still holding a permit, the events already handed to
the router (in order), and whether consume has returned. -/
structure ConsumerState where
  pending : List Event
  inFlight : Nat
  dispatched : List Event
  returned : Bool

/-- Transitions of consume:
dispatch - the while-let receives the next event, acquires a permit (only
available when fewer than BUFFER_SIZE tasks are in flight) and spawns the
handler task (timeout(HANDLER_TIMEOUT, router.handle(event)));
complete - a spawned task finishes (its handler returned, errored, or was
abandoned by the 1s timeout) and drops its permit;
drainReturn - after the stream is exhausted, acquire_many(BUFFER_SIZE)
succeeds once every permit is back, and consume returns. -/
inductive ConsumerStep : ConsumerState → ConsumerState → Prop where
  | dispatch (e : Event) (rest : List Event) (s : ConsumerState)
      (hq : s.pending = e :: rest) (hk : s.inFlight < BUFFER_SIZE)
      (hr : s.returned = false) :
      ConsumerStep s
        { pending := rest, inFlight := s.inFlight + 1,
          dispatched := s.dispatched ++ [e], returned := false }
  | complete (s : ConsumerState) (n : Nat) (h : s.inFlight = n + 1) :
      ConsumerStep s { s with inFlight := n }
  | drainReturn (s : ConsumerState) (hq : s.pending = [])
      (hf : s.inFlight = 0) (hr : s.returned = false) :
      ConsumerStep s { s with returned := true }

/-- Initial state of consume on a given event stream. -/
def initConsumerState (stream : List Event) : ConsumerState :=
  { pending := stream, inFlight := 0, dispatched := [], returned := false }

/-- States reachable by a consume run over the given stream. -/
def ConsumerReachable (stream : List Event) (s : ConsumerState) : Prop :=
  Relation.ReflTransGen ConsumerStep (initConsumerState stream) s

/-! Concrete sample data used by witnesses and counterexamples. -/

def sampleUser : User :=
  { id := "42".data, display_name := "alice".data, platform := .Twitch,
    role := RoleLegacy.SUBSCRIBER }

def sampleEvent : Event :=
  { ctx := { user := sampleUser, channel := some "ch".data },
    kind := .ChatMessage "hi".data }

/-- Probe handler whose result is distinguishable from the permission
error: running it shows the middleware invoked the inner handler. -/
def innerProbe : HandlerFn := fun _ => .error "inner handler ran"

/-- Probe handler that succeeds. -/
def okHandler : HandlerFn := fun _ => .ok ()

/-- Route table with a single Message handler, used by witnesses. -/
def sampleTable : RouteTable := BaseRouter.route BaseRouter.new .Message okHandler

/-- Final state of a one-event consume run, used by the C3 witness. -/
def consumerWitnessState : ConsumerState :=
  { pending := [], inFlight := 0, dispatched := [sampleEvent], returned := true }

/-! Theorems.  Helper lemmas come first, then one named theorem per claim
(with counterexamples and witnesses where the status of a claim calls for
them). -/

theorem land_two_pow_bne (r i : Nat) : (r &&& 2 ^ i != 0) = r.testBit i := by
  rw [Nat.and_two_pow]
  cases h : r.testBit i <;> simp [h, Nat.pos_iff_ne_zero]

/-- C1 (amended).  Role containment in the workspace crate uses all-bits
semantics: contains(m) is true iff every bit of m is set, and the three
composite-constant facts hold there.  (The legacy root tree has a contains that is
an any-bit test instead; see the counterexample.) -/
theorem role_contains_all_bits_semantics (r m : Nat) :
    (Role.contains r m = true ↔ ∀ i, m.testBit i = true → r.testBit i = true) ∧
    Role.contains Role.BROADCASTER Role.MODERATOR = true ∧
    Role.contains Role.MODERATOR Role.BROADCASTER = false ∧
    Role.contains Role.SUBSCRIBER Role.PLEB = true := by
  refine ⟨?_, by decide, by decide, by decide⟩
  unfold Role.contains
  rw [beq_iff_eq]
  constructor
  · intro h i him
    have hbit := congrArg (fun x => x.testBit i) h
    simp only [Nat.testBit_land] at hbit
    rw [him] at hbit
    simpa using hbit
  · intro h
    apply Nat.eq_of_testBit_eq
    intro i
    rw [Nat.testBit_land]
    cases hm : m.testBit i with
    | false => simp
    | true => simp [h i hm]

theorem role_contains_all_bits_semantics_witness :
    Role.contains 5 4 = true ∧ Nat.testBit 5 2 = true :=
  ⟨by decide, ((role_contains_all_bits_semantics 5 4).1).mp (by decide) 2 (by decide)⟩

/-- C1 counterexample.  In the legacy root tree (src/src/domain/models.rs),
Moderator.contains(Broadcaster) is true and Subscriber.contains(Pleb) is
false, although the Moderator bits do not include all Broadcaster bits: the
claimed all-bits reading fails there. -/
theorem role_contains_legacy_any_bit_cex :
    RoleLegacy.contains RoleLegacy.MODERATOR RoleLegacy.BROADCASTER = true ∧
    RoleLegacy.contains RoleLegacy.SUBSCRIBER RoleLegacy.PLEB = false ∧
    RoleLegacy.MODERATOR &&& RoleLegacy.BROADCASTER ≠ RoleLegacy.BROADCASTER := by
  decide

/-- C4 (amended).  Over the legacy any-bit has_role that the middleware
uses, AuthMiddleware::handle short-circuits with the permission-denied
error (naming the display name and platform) exactly when the
user role shares no bit with the required mask; when at least one
required bit is present it returns the result of the inner handler. -/
theorem auth_middleware_any_bit (required : Nat) (inner : HandlerFn) (e : Event) :
    (e.ctx.user.role &&& required = 0 →
      AuthMiddleware.handle required inner e = make_permission_error e.ctx.user) ∧
    (e.ctx.user.role &&& required ≠ 0 →
      AuthMiddleware.handle required inner e = inner e) := by
  unfold AuthMiddleware.handle Event.has_role RoleLegacy.contains
  constructor
  · intro h
    simp [h]
  · intro h
    simp [h]

theorem auth_middleware_any_bit_witness :
    AuthMiddleware.handle 8 okHandler sampleEvent =
      make_permission_error sampleEvent.ctx.user ∧
    AuthMiddleware.handle RoleLegacy.MODERATOR okHandler sampleEvent =
      okHandler sampleEvent :=
  ⟨(auth_middleware_any_bit 8 okHandler sampleEvent).1 (by decide),
   (auth_middleware_any_bit RoleLegacy.MODERATOR okHandler sampleEvent).2 (by decide)⟩

/-- C4 counterexample.  A subscriber-only user does not contain all bits of
the MODERATOR mask, yet the middleware invokes the inner handler (whose
probe result is returned) instead of short-circuiting: has_role is an
any-bit test in the cited code. -/
theorem auth_middleware_all_bits_cex :
    (sampleUser.role &&& RoleLegacy.MODERATOR ≠ RoleLegacy.MODERATOR) ∧
    AuthMiddleware.handle RoleLegacy.MODERATOR innerProbe sampleEvent =
      Except.error "inner handler ran" ∧
    make_permission_error sampleEvent.ctx.user =
      Except.error "permission denied for alice on Twitch" ∧
    ("inner handler ran" : String) ≠ "permission denied for alice on Twitch" := by
  refine ⟨by decide, rfl, rfl, by decide⟩

/-- C8.  The primary (reward) subscription request fails exactly on a
non-success HTTP status, while the secondary (chat) subscription request
succeeds for every status, a non-success status producing only a log
line. -/
theorem subscription_failure_asymmetry (status : Nat) (body : String) :
    (subscribe_to_rewards_result status body).isOk = isSuccessStatus status ∧
    (subscribe_to_chat_result status body).1 = .ok () ∧
    (isSuccessStatus status = false → (subscribe_to_chat_result status body).2 ≠ []) := by
  unfold subscribe_to_rewards_result subscribe_to_chat_result
  cases h : isSuccessStatus status <;> simp [h, Except.isOk, Except.toBool]

theorem subscription_failure_asymmetry_witness :
    (subscribe_to_rewards_result 200 "").isOk = true ∧
    (subscribe_to_chat_result 500 "oops").2 ≠ [] :=
  ⟨(subscription_failure_asymmetry 200 "").1, (subscription_failure_asymmetry 500 "oops").2.2 (by decide)⟩

/-- C9.  One iteration of the token refresh background loop sleeps
max(expires_in - REFRESH_BUFFER, MIN_SLEEP) seconds after a successful
refresh (stated over Int, which shows the Nat saturating subtraction agrees
with the mathematical reading), and the fixed retry delay of 30 seconds
after a failed refresh, without propagating the error. -/
theorem refresh_sleep_formula :
    (∀ expires_in : Nat,
      (refreshLoopSleepSecs (.ok expires_in) : Int) =
        max ((expires_in : Int) - (REFRESH_BUFFER_SECS : Int)) (MIN_SLEEP_SECS : Int)) ∧
    (∀ msg : String, refreshLoopSleepSecs (.error msg) = RETRY_DELAY_SECS) := by
  constructor
  · intro e
    simp only [refreshLoopSleepSecs, REFRESH_BUFFER_SECS, MIN_SLEEP_SECS]
    rw [Nat.cast_max]
    rcases Nat.le_total e 600 with h | h
    · rw [Nat.sub_eq_zero_of_le h,
        max_eq_right (show (e : Int) - ((600 : Nat) : Int) ≤ ((60 : Nat) : Int) by push_cast; omega)]
      simp
    · rw [Nat.cast_sub h]
  · intro msg
    rfl

theorem twitchRole_highest_eq (r : Nat) :
    TwitchRole.highest r =
      if r.testBit 3 then 8 else if r.testBit 2 then 4
      else if r.testBit 1 then 2 else if r.testBit 0 then 1 else 0 := by
  have h3 : (r &&& TwitchRole.BROADCASTER != 0) = r.testBit 3 := land_two_pow_bne r 3
  have h2 : (r &&& TwitchRole.MODERATOR != 0) = r.testBit 2 := land_two_pow_bne r 2
  have h1 : (r &&& TwitchRole.VIP != 0) = r.testBit 1 := land_two_pow_bne r 1
  have h0 : (r &&& TwitchRole.SUBSCRIBER != 0) = r.testBit 0 := land_two_pow_bne r 0
  unfold TwitchRole.highest
  rw [h3, h2, h1, h0]
  rfl

/-- C10.  Converting an SDK TwitchRole to a domain Role keeps only the
highest-priority set bit and maps it to the corresponding hierarchical
constant (PLEB when none of the four role bits is set); the conversion is
insensitive to the lower bits (it factors through highest), and its result
always satisfies the downward-closure invariant. -/
theorem twitch_role_conversion_highest_tier (r : Nat) :
    (roleOfTwitchRole r =
      if r.testBit 3 then Role.BROADCASTER
      else if r.testBit 2 then Role.MODERATOR
      else if r.testBit 1 then Role.VIP
      else if r.testBit 0 then Role.SUBSCRIBER
      else Role.PLEB) ∧
    roleOfTwitchRole r = roleOfTwitchRole (TwitchRole.highest r) ∧
    roleDownwardClosed (roleOfTwitchRole r) := by
  have hspec : roleOfTwitchRole r =
      if r.testBit 3 then Role.BROADCASTER
      else if r.testBit 2 then Role.MODERATOR
      else if r.testBit 1 then Role.VIP
      else if r.testBit 0 then Role.SUBSCRIBER
      else Role.PLEB := by
    unfold roleOfTwitchRole
    rw [twitchRole_highest_eq]
    cases h3 : r.testBit 3 <;> cases h2 : r.testBit 2 <;>
      cases h1 : r.testBit 1 <;> cases h0 : r.testBit 0 <;> decide
  have hid : TwitchRole.highest (TwitchRole.highest r) = TwitchRole.highest r := by
    rw [twitchRole_highest_eq r]
    cases h3 : r.testBit 3 <;> cases h2 : r.testBit 2 <;>
      cases h1 : r.testBit 1 <;> cases h0 : r.testBit 0 <;> decide
  refine ⟨hspec, ?_, ?_⟩
  · unfold roleOfTwitchRole
    rw [hid]
  · rw [hspec]
    unfold roleDownwardClosed
    cases h3 : r.testBit 3 <;> cases h2 : r.testBit 2 <;>
      cases h1 : r.testBit 1 <;> cases h0 : r.testBit 0 <;> decide

theorem twitch_role_conversion_highest_tier_witness :
    roleOfTwitchRole 5 = Role.MODERATOR ∧ Nat.testBit (roleOfTwitchRole 5) 1 = true := by
  refine ⟨by decide, ?_⟩
  have h := (twitch_role_conversion_highest_tier 5).2.2
  unfold roleDownwardClosed at h
  exact h.2.1 (by decide)

/-- C7.  BaseRouter::handle reports a routing error exactly on an unmapped
route and otherwise returns the result of the mapped handler; the route is
derived from the event kind, with ChatMessage and System going to
Message, Command to Command, RewardRedemption to ChannelPointRedemption
and Donation to Donation. -/
theorem base_router_routing (t : RouteTable) (e : Event) :
    (t (routeOfEvent e) = none →
      BaseRouter.handle t e =
        .error ("no handler for route: " ++ routeName (routeOfEvent e))) ∧
    (∀ h, t (routeOfEvent e) = some h → BaseRouter.handle t e = h e) ∧
    (∀ ctx text, routeOfEvent ⟨ctx, .ChatMessage text⟩ = .Message) ∧
    (∀ ctx msg, routeOfEvent ⟨ctx, .System msg⟩ = .Message) ∧
    (∀ ctx n a, routeOfEvent ⟨ctx, .Command n a⟩ = .Command) ∧
    (∀ ctx i ti c ui,
      routeOfEvent ⟨ctx, .RewardRedemption i ti c ui⟩ = .ChannelPointRedemption) ∧
    (∀ ctx am cur m, routeOfEvent ⟨ctx, .Donation am cur m⟩ = .Donation) := by
  refine ⟨?_, ?_, fun _ _ => rfl, fun _ _ => rfl, fun _ _ _ => rfl,
    fun _ _ _ _ _ => rfl, fun _ _ _ _ => rfl⟩
  · intro h
    unfold BaseRouter.handle
    rw [h]
  · intro hh h
    unfold BaseRouter.handle
    rw [h]

theorem base_router_routing_witness :
    BaseRouter.handle sampleTable sampleEvent = okHandler sampleEvent ∧
    BaseRouter.handle BaseRouter.new sampleEvent =
      .error ("no handler for route: " ++ routeName (routeOfEvent sampleEvent)) :=
  ⟨(base_router_routing sampleTable sampleEvent).2.1 okHandler rfl,
   (base_router_routing BaseRouter.new sampleEvent).1 rfl⟩

/-- C3.  Along every run of consume: at most BUFFER_SIZE = 30 handler
invocations are in flight at any instant; the events handed to the router
are exactly the received prefix of the stream, in order; and in any state
where consume has returned, the stream was fully drained, every event was
handed to the router, and no handler invocation is still outstanding. -/
theorem consumer_consume_bounded_drain (stream : List Event) (s : ConsumerState)
    (h : ConsumerReachable stream s) :
    s.inFlight ≤ BUFFER_SIZE ∧
    s.dispatched ++ s.pending = stream ∧
    (s.returned = true → s.pending = [] ∧ s.inFlight = 0 ∧ s.dispatched = stream) := by
  unfold ConsumerReachable at h
  induction h with
  | refl =>
    refine ⟨by simp [initConsumerState, BUFFER_SIZE], by simp [initConsumerState], ?_⟩
    intro hret
    simp [initConsumerState] at hret
  | tail hab hstep ih =>
    obtain ⟨ihK, ihD, ihR⟩ := ih
    cases hstep with
    | dispatch e rest b hq hk hr =>
      refine ⟨hk, ?_, ?_⟩
      · simp only [List.append_assoc, List.singleton_append]
        rw [← hq]
        exact ihD
      · intro hret
        simp at hret
    | complete b n hI =>
      refine ⟨show n ≤ BUFFER_SIZE by omega, ihD, ?_⟩
      intro hret
      obtain ⟨-, hf, -⟩ := ihR hret
      omega
    | drainReturn b hq hf hr =>
      refine ⟨ihK, ihD, fun _ => ⟨hq, hf, ?_⟩⟩
      rw [hq] at ihD
      simpa using ihD

theorem consumer_consume_bounded_drain_witness :
    consumerWitnessState.inFlight ≤ BUFFER_SIZE ∧
    consumerWitnessState.dispatched ++ consumerWitnessState.pending = [sampleEvent] ∧
    (consumerWitnessState.returned = true →
      consumerWitnessState.pending = [] ∧ consumerWitnessState.inFlight = 0 ∧
      consumerWitnessState.dispatched = [sampleEvent]) :=
  consumer_consume_bounded_drain [sampleEvent] consumerWitnessState
    (Relation.ReflTransGen.tail
      (Relation.ReflTransGen.tail
        (Relation.ReflTransGen.tail Relation.ReflTransGen.refl
          (ConsumerStep.dispatch sampleEvent [] _ rfl (by decide) rfl))
        (ConsumerStep.complete _ 0 rfl))
      (ConsumerStep.drainReturn _ rfl rfl rfl))

theorem splitOnPred_ne_nil (p : Char → Bool) (s : Str) : splitOnPred p s ≠ [] := by
  induction s with
  | nil => simp [splitOnPred]
  | cons c rest ih =>
    unfold splitOnPred
    cases hp : p c with
    | true => simp [hp]
    | false =>
      simp only [hp, Bool.false_eq_true, if_false]
      cases hr : splitOnPred p rest with
      | nil => exact absurd hr ih
      | cons t ts => simp [hr]

theorem splitOnPred_all_empty (p : Char → Bool) (s : Str) :
    (∀ t ∈ splitOnPred p s, t = []) ↔ (∀ c ∈ s, p c = true) := by
  induction s with
  | nil => simp [splitOnPred]
  | cons c rest ih =>
    unfold splitOnPred
    cases hp : p c with
    | true => simp [hp, ih]
    | false =>
      cases hr : splitOnPred p rest with
      | nil => exact absurd hr (splitOnPred_ne_nil p rest)
      | cons t ts => simp [hp, hr]

theorem splitWs_eq_nil_iff (s : Str) : splitWs s = [] ↔ ∀ c ∈ s, isWs c = true := by
  unfold splitWs
  rw [List.filter_eq_nil_iff]
  constructor
  · intro h
    refine (splitOnPred_all_empty isWs s).mp ?_
    intro t ht
    have := h t ht
    simpa [List.isEmpty_iff] using this
  · intro h t ht
    have : t = [] := (splitOnPred_all_empty isWs s).mpr h t ht
    simp [this]

theorem eventKindOfText_bang (rest : Str) :
    eventKindOfText ('!' :: rest) =
      (if rest.isEmpty then .ChatMessage ('!' :: rest)
       else
         match splitWs rest with
         | [] => .ChatMessage ('!' :: rest)
         | name :: args => .Command name args) := rfl

theorem eventKindOfText_not_bang (c : Char) (rest : Str) (hc : c ≠ '!') :
    eventKindOfText (c :: rest) = .ChatMessage (c :: rest) := by
  unfold eventKindOfText
  split <;> simp_all

theorem eventKindOfText_shape (text : Str) :
    eventKindOfText text = .ChatMessage text ∨
    ∃ n a, eventKindOfText text = .Command n a := by
  cases text with
  | nil => left; rfl
  | cons c rest =>
    by_cases hc : c = '!'
    · subst hc
      rw [eventKindOfText_bang]
      by_cases he : rest.isEmpty
      · simp [he]
      · rw [if_neg he]
        cases hsw : splitWs rest with
        | nil => left; rfl
        | cons t ts => right; exact ⟨t, ts, rfl⟩
    · left; exact eventKindOfText_not_bang c rest hc

/-- C2 (amended).  Conversion of chat text to an EventKind yields a Command
exactly when the text begins with a bang and the remainder contains at
least one non-whitespace character, i.e. at least one whitespace-separated
token; leading whitespace after the bang is allowed and skipped.  The first
token of the remainder becomes the name and the rest the args; otherwise
the text stays a ChatMessage unchanged.  In particular the three literal
cases of the claim hold. -/
theorem eventKind_reclassification_amended (text : Str) :
    ((∃ n a, eventKindOfText text = .Command n a) ↔
      ∃ rest, text = '!' :: rest ∧ ∃ c ∈ rest, isWs c = false) ∧
    (∀ rest n a, text = '!' :: rest → eventKindOfText text = .Command n a →
      splitWs rest = n :: a) ∧
    ((∀ n a, eventKindOfText text ≠ .Command n a) →
      eventKindOfText text = .ChatMessage text) ∧
    eventKindOfText "!foo bar baz".data = .Command "foo".data ["bar".data, "baz".data] ∧
    eventKindOfText "!".data = .ChatMessage "!".data ∧
    eventKindOfText "! ".data = .ChatMessage "! ".data := by
  refine ⟨⟨?_, ?_⟩, ?_, ?_, rfl, rfl, rfl⟩
  · rintro ⟨n, a, hcmd⟩
    cases text with
    | nil => simp [eventKindOfText] at hcmd
    | cons c rest =>
      by_cases hc : c = '!'
      · subst hc
        refine ⟨rest, rfl, ?_⟩
        rw [eventKindOfText_bang] at hcmd
        by_cases he : rest.isEmpty
        · simp [he] at hcmd
        · rw [if_neg he] at hcmd
          cases hsw : splitWs rest with
          | nil => rw [hsw] at hcmd; simp at hcmd
          | cons t ts =>
            have hne : splitWs rest ≠ [] := by simp [hsw]
            have hnall : ¬ ∀ ch ∈ rest, isWs ch = true :=
              fun hall => hne ((splitWs_eq_nil_iff rest).mpr hall)
            push_neg at hnall
            obtain ⟨ch, hch, hws⟩ := hnall
            exact ⟨ch, hch, by simpa using hws⟩
      · rw [eventKindOfText_not_bang c rest hc] at hcmd
        simp at hcmd
  · rintro ⟨rest, htext, ch, hch, hws⟩
    subst htext
    rw [eventKindOfText_bang]
    have hsw : splitWs rest ≠ [] := by
      intro h
      have := (splitWs_eq_nil_iff rest).mp h ch hch
      simp [this] at hws
    have he : ¬ rest.isEmpty = true := by
      intro h
      have hnil : rest = [] := by simpa using h
      subst hnil
      exact (List.not_mem_nil ch) hch
    rw [if_neg he]
    cases hsw2 : splitWs rest with
    | nil => exact absurd hsw2 hsw
    | cons t ts => exact ⟨t, ts, rfl⟩
  · rintro rest n a rfl hcmd
    rw [eventKindOfText_bang] at hcmd
    by_cases he : rest.isEmpty
    · simp [he] at hcmd
    · rw [if_neg he] at hcmd
      cases hsw : splitWs rest with
      | nil => rw [hsw] at hcmd; simp at hcmd
      | cons t ts =>
        rw [hsw] at hcmd
        have h2 : EventKind.Command t ts = EventKind.Command n a := hcmd
        injection h2 with hn ha
        rw [hn, ha]
  · intro hno
    rcases eventKindOfText_shape text with h | ⟨n, a, h⟩
    · exact h
    · exact absurd h (hno n a)

theorem eventKind_reclassification_amended_witness :
    ∃ n a, eventKindOfText "!ping".data = EventKind.Command n a :=
  ((eventKind_reclassification_amended "!ping".data).1).mpr
    ⟨"ping".data, rfl, 'p', by decide, by decide⟩

/-- C2 counterexample.  On the text "! x" the bang is immediately followed
by whitespace, not by a token, yet the code yields Command with name "x"
rather than leaving the text a ChatMessage: the leading whitespace after
the bang is skipped by split_whitespace. -/
theorem eventKind_reclassification_cex :
    "! x".data = '!' :: ' ' :: 'x' :: [] ∧
    isWs ' ' = true ∧
    eventKindOfText "! x".data = .Command ['x'] [] :=
  ⟨rfl, rfl, rfl⟩

theorem isPrefixOf_head_ne {a c : Char} (p q s : Str) (hne : a ≠ c)
    (hp : (a :: p).isPrefixOf s = true) : (c :: q).isPrefixOf s = false := by
  cases s with
  | nil => simp [List.isPrefixOf] at hp
  | cons d rest =>
    simp only [List.isPrefixOf, Bool.and_eq_true, beq_iff_eq] at hp
    simp only [List.isPrefixOf, Bool.and_eq_false_iff, beq_eq_false_iff_ne]
    exact Or.inl (fun hcd => hne (hp.1.trans hcd.symm))

theorem stepBadge_or (acc : Nat) (b : Str) : stepBadge acc b = acc ||| stepBadge 0 b := by
  unfold stepBadge
  cases h1 : "broadcaster/".data.isPrefixOf b <;>
    cases h2 : "vip/".data.isPrefixOf b <;>
      cases h3 : "subscriber/".data.isPrefixOf b <;> simp

theorem foldl_stepBadge_testBit (l : List Str) (acc : Nat) (i : Nat) :
    ((l.foldl stepBadge acc).testBit i) =
      (acc.testBit i || l.any fun b => (stepBadge 0 b).testBit i) := by
  induction l generalizing acc with
  | nil => simp
  | cons b l ih =>
    simp only [List.foldl_cons, List.any_cons]
    rw [ih, stepBadge_or, Nat.testBit_lor]
    cases acc.testBit i <;> cases (stepBadge 0 b).testBit i <;> simp

theorem stepBadge_zero_bit3 (b : Str) :
    (stepBadge 0 b).testBit 3 = "broadcaster/".data.isPrefixOf b := by
  unfold stepBadge
  cases h1 : "broadcaster/".data.isPrefixOf b <;>
    cases h2 : "vip/".data.isPrefixOf b <;>
      cases h3 : "subscriber/".data.isPrefixOf b <;>
        simp only [eq_self_iff_true, Bool.false_eq_true, if_true, if_false] <;> decide

theorem stepBadge_zero_bit1 (b : Str) :
    (stepBadge 0 b).testBit 1 = "vip/".data.isPrefixOf b := by
  unfold stepBadge
  cases h1 : "broadcaster/".data.isPrefixOf b with
  | true =>
    have hv : "vip/".data.isPrefixOf b = false :=
      isPrefixOf_head_ne "roadcaster/".data "ip/".data b (by decide) h1
    rw [hv]
    simp only [eq_self_iff_true, if_true]
    decide
  | false =>
    cases h2 : "vip/".data.isPrefixOf b <;>
      cases h3 : "subscriber/".data.isPrefixOf b <;>
        simp only [eq_self_iff_true, Bool.false_eq_true, if_true, if_false] <;> decide

theorem stepBadge_zero_bit0 (b : Str) :
    (stepBadge 0 b).testBit 0 = "subscriber/".data.isPrefixOf b := by
  unfold stepBadge
  cases h1 : "broadcaster/".data.isPrefixOf b with
  | true =>
    have hs : "subscriber/".data.isPrefixOf b = false :=
      isPrefixOf_head_ne "roadcaster/".data "ubscriber/".data b (by decide) h1
    rw [hs]
    simp only [eq_self_iff_true, if_true]
    decide
  | false =>
    cases h2 : "vip/".data.isPrefixOf b with
    | true =>
      have hs : "subscriber/".data.isPrefixOf b = false :=
        isPrefixOf_head_ne "ip/".data "ubscriber/".data b (by decide) h2
      rw [hs]
      simp only [eq_self_iff_true, Bool.false_eq_true, if_true, if_false]
      decide
    | false =>
      cases h3 : "subscriber/".data.isPrefixOf b <;>
        simp only [eq_self_iff_true, Bool.false_eq_true, if_true, if_false] <;> decide

theorem stepBadge_zero_bit2 (b : Str) : (stepBadge 0 b).testBit 2 = false := by
  unfold stepBadge
  cases h1 : "broadcaster/".data.isPrefixOf b <;>
    cases h2 : "vip/".data.isPrefixOf b <;>
      cases h3 : "subscriber/".data.isPrefixOf b <;>
        simp only [eq_self_iff_true, Bool.false_eq_true, if_true, if_false] <;> decide

theorem stepBadgeLegacy_or (acc : Nat) (b : Str) :
    stepBadgeLegacy acc b = acc ||| stepBadgeLegacy 0 b := by
  unfold stepBadgeLegacy
  cases h1 : "broadcaster/".data.isPrefixOf b <;>
    cases h2 : "vip/".data.isPrefixOf b <;>
      cases h3 : "subscriber/".data.isPrefixOf b <;> simp

theorem foldl_stepBadgeLegacy_testBit (l : List Str) (acc : Nat) (i : Nat) :
    ((l.foldl stepBadgeLegacy acc).testBit i) =
      (acc.testBit i || l.any fun b => (stepBadgeLegacy 0 b).testBit i) := by
  induction l generalizing acc with
  | nil => simp
  | cons b l ih =>
    simp only [List.foldl_cons, List.any_cons]
    rw [ih, stepBadgeLegacy_or, Nat.testBit_lor]
    cases acc.testBit i <;> cases (stepBadgeLegacy 0 b).testBit i <;> simp

theorem stepBadgeLegacy_zero_bit3 (b : Str) :
    (stepBadgeLegacy 0 b).testBit 3 = "broadcaster/".data.isPrefixOf b := by
  unfold stepBadgeLegacy
  cases h1 : "broadcaster/".data.isPrefixOf b <;>
    cases h2 : "vip/".data.isPrefixOf b <;>
      cases h3 : "subscriber/".data.isPrefixOf b <;>
        simp only [eq_self_iff_true, Bool.false_eq_true, if_true, if_false] <;> decide

theorem stepBadgeLegacy_zero_bit2 (b : Str) :
    (stepBadgeLegacy 0 b).testBit 2 = "broadcaster/".data.isPrefixOf b := by
  unfold stepBadgeLegacy
  cases h1 : "broadcaster/".data.isPrefixOf b <;>
    cases h2 : "vip/".data.isPrefixOf b <;>
      cases h3 : "subscriber/".data.isPrefixOf b <;>
        simp only [eq_self_iff_true, Bool.false_eq_true, if_true, if_false] <;> decide

theorem stepBadgeLegacy_zero_bit1 (b : Str) :
    (stepBadgeLegacy 0 b).testBit 1 =
      ("broadcaster/".data.isPrefixOf b || "vip/".data.isPrefixOf b) := by
  unfold stepBadgeLegacy
  cases h1 : "broadcaster/".data.isPrefixOf b <;>
    cases h2 : "vip/".data.isPrefixOf b <;>
      cases h3 : "subscriber/".data.isPrefixOf b <;>
        simp only [eq_self_iff_true, Bool.false_eq_true, if_true, if_false] <;> decide

theorem stepBadgeLegacy_zero_bit0 (b : Str) :
    (stepBadgeLegacy 0 b).testBit 0 =
      ("broadcaster/".data.isPrefixOf b || "vip/".data.isPrefixOf b ||
        "subscriber/".data.isPrefixOf b) := by
  unfold stepBadgeLegacy
  cases h1 : "broadcaster/".data.isPrefixOf b <;>
    cases h2 : "vip/".data.isPrefixOf b <;>
      cases h3 : "subscriber/".data.isPrefixOf b <;>
        simp only [eq_self_iff_true, Bool.false_eq_true, if_true, if_false] <;> decide


/-- C5 (amended).  In the SDK tree, badge parsing sets the broadcaster bit
iff some comma-separated entry starts with "broadcaster/", the vip bit iff
some entry starts with "vip/", the subscriber bit iff some entry starts
with "subscriber/", and never the moderator bit.  In the legacy root tree,
parse_badges ORs the composite Role constants instead, so a broadcaster
entry also sets the moderator, vip and subscriber bits and a vip entry
also sets the subscriber bit.  In both trees a "founder/..." entry adds no
bit: neither implementation has a founder arm. -/
theorem parse_badges_bits (badges : Str) :
    ((parse_badges badges).testBit 3 = true ↔
      ∃ b ∈ splitOnChar ',' badges, "broadcaster/".data.isPrefixOf b = true) ∧
    ((parse_badges badges).testBit 1 = true ↔
      ∃ b ∈ splitOnChar ',' badges, "vip/".data.isPrefixOf b = true) ∧
    ((parse_badges badges).testBit 0 = true ↔
      ∃ b ∈ splitOnChar ',' badges, "subscriber/".data.isPrefixOf b = true) ∧
    (parse_badges badges).testBit 2 = false ∧
    ((parse_badges_legacy badges).testBit 3 = true ↔
      ∃ b ∈ splitOnChar ',' badges, "broadcaster/".data.isPrefixOf b = true) ∧
    ((parse_badges_legacy badges).testBit 2 = true ↔
      ∃ b ∈ splitOnChar ',' badges, "broadcaster/".data.isPrefixOf b = true) ∧
    ((parse_badges_legacy badges).testBit 1 = true ↔
      ((∃ b ∈ splitOnChar ',' badges, "broadcaster/".data.isPrefixOf b = true) ∨
       (∃ b ∈ splitOnChar ',' badges, "vip/".data.isPrefixOf b = true))) ∧
    ((parse_badges_legacy badges).testBit 0 = true ↔
      ((∃ b ∈ splitOnChar ',' badges, "broadcaster/".data.isPrefixOf b = true) ∨
       (∃ b ∈ splitOnChar ',' badges, "vip/".data.isPrefixOf b = true) ∨
       (∃ b ∈ splitOnChar ',' badges, "subscriber/".data.isPrefixOf b = true))) := by
  unfold parse_badges parse_badges_legacy
  refine ⟨?_, ?_, ?_, ?_, ?_, ?_, ?_, ?_⟩
  · rw [foldl_stepBadge_testBit]
    simp only [Nat.zero_testBit, Bool.false_or, List.any_eq_true, stepBadge_zero_bit3]
  · rw [foldl_stepBadge_testBit]
    simp only [Nat.zero_testBit, Bool.false_or, List.any_eq_true, stepBadge_zero_bit1]
  · rw [foldl_stepBadge_testBit]
    simp only [Nat.zero_testBit, Bool.false_or, List.any_eq_true, stepBadge_zero_bit0]
  · rw [foldl_stepBadge_testBit]
    simp only [Nat.zero_testBit, Bool.false_or, stepBadge_zero_bit2]
    simp
  · rw [foldl_stepBadgeLegacy_testBit]
    simp only [Nat.zero_testBit, Bool.false_or, List.any_eq_true,
      stepBadgeLegacy_zero_bit3]
  · rw [foldl_stepBadgeLegacy_testBit]
    simp only [Nat.zero_testBit, Bool.false_or, List.any_eq_true,
      stepBadgeLegacy_zero_bit2]
  · rw [foldl_stepBadgeLegacy_testBit]
    simp only [Nat.zero_testBit, Bool.false_or, List.any_eq_true,
      stepBadgeLegacy_zero_bit1, Bool.or_eq_true]
    constructor
    · rintro ⟨b, hb, h | h⟩
      · exact Or.inl ⟨b, hb, h⟩
      · exact Or.inr ⟨b, hb, h⟩
    · rintro (⟨b, hb, h⟩ | ⟨b, hb, h⟩)
      · exact ⟨b, hb, Or.inl h⟩
      · exact ⟨b, hb, Or.inr h⟩
  · rw [foldl_stepBadgeLegacy_testBit]
    simp only [Nat.zero_testBit, Bool.false_or, List.any_eq_true,
      stepBadgeLegacy_zero_bit0, Bool.or_eq_true]
    constructor
    · rintro ⟨b, hb, (h | h) | h⟩
      · exact Or.inl ⟨b, hb, h⟩
      · exact Or.inr (Or.inl ⟨b, hb, h⟩)
      · exact Or.inr (Or.inr ⟨b, hb, h⟩)
    · rintro (⟨b, hb, h⟩ | ⟨b, hb, h⟩ | ⟨b, hb, h⟩)
      · exact ⟨b, hb, Or.inl (Or.inl h)⟩
      · exact ⟨b, hb, Or.inl (Or.inr h)⟩
      · exact ⟨b, hb, Or.inr h⟩

theorem parse_badges_bits_witness :
    (parse_badges "broadcaster/1".data).testBit 3 = true ∧
    (parse_badges_legacy "broadcaster/1".data).testBit 2 = true :=
  ⟨((parse_badges_bits "broadcaster/1".data).1).mpr
      ⟨"broadcaster/1".data, by decide, by decide⟩,
   ((parse_badges_bits "broadcaster/1".data).2.2.2.2.2.1).mpr
      ⟨"broadcaster/1".data, by decide, by decide⟩⟩

/-- C5 counterexample.  "founder/1" is a founder badge entry, yet parsing
it yields the empty role in both trees: the subscriber bit the claim
promises is not set, because neither parse_badges has a founder arm. -/
theorem parse_badges_founder_cex :
    "founder/".data.isPrefixOf "founder/1".data = true ∧
    parse_badges "founder/1".data = 0 ∧
    (parse_badges "founder/1".data).testBit 0 = false ∧
    parse_badges_legacy "founder/1".data = 0 ∧
    (parse_badges_legacy "founder/1".data).testBit 0 = false := by
  refine ⟨by decide, by decide, by decide, by decide, by decide⟩

theorem stepTag_user_id (acc : TagsAcc) (p : Str) :
    (stepTag acc p).user_id = (pairValue "user-id".data p).getD acc.user_id := by
  cases hs : splitOnce '=' p with
  | none =>
    simp only [stepTag, pairValue, hs]
    rfl
  | some kv =>
    obtain ⟨k, v⟩ := kv
    simp only [stepTag, pairValue, hs]
    split_ifs <;> rfl

theorem stepTag_dn (acc : TagsAcc) (p : Str) :
    (stepTag acc p).dn = (pairValueNE "display-name".data p).or acc.dn := by
  cases hs : splitOnce '=' p with
  | none =>
    simp only [stepTag, pairValueNE, pairValue, hs]
    rfl
  | some kv =>
    obtain ⟨k, v⟩ := kv
    simp only [stepTag, pairValueNE, pairValue, hs]
    split_ifs <;> first | rfl | simp_all

theorem stepTag_login (acc : TagsAcc) (p : Str) :
    (stepTag acc p).login = (pairValue "login".data p).or acc.login := by
  cases hs : splitOnce '=' p with
  | none =>
    simp only [stepTag, pairValue, hs]
    rfl
  | some kv =>
    obtain ⟨k, v⟩ := kv
    simp only [stepTag, pairValue, hs]
    split_ifs <;> first | rfl | simp_all

theorem foldl_stepTag_val (f : TagsAcc → Str) (pv : Str → Option Str)
    (hstep : ∀ acc p, f (stepTag acc p) = (pv p).getD (f acc))
    (l : List Str) (acc : TagsAcc) :
    f (l.foldl stepTag acc) = (l.reverse.findSome? pv).getD (f acc) := by
  induction l generalizing acc with
  | nil => simp
  | cons p l ih =>
    simp only [List.foldl_cons, List.reverse_cons]
    rw [ih, List.findSome?_append]
    cases hf : List.findSome? pv l.reverse with
    | some v => simp [hf, Option.or]
    | none =>
      simp [hf, Option.or, hstep, List.findSome?]
      cases pv p <;> rfl

theorem foldl_stepTag_opt (f : TagsAcc → Option Str) (pv : Str → Option Str)
    (hstep : ∀ acc p, f (stepTag acc p) = (pv p).or (f acc))
    (l : List Str) (acc : TagsAcc) :
    f (l.foldl stepTag acc) = (l.reverse.findSome? pv).or (f acc) := by
  induction l generalizing acc with
  | nil => simp
  | cons p l ih =>
    simp only [List.foldl_cons, List.reverse_cons]
    rw [ih, List.findSome?_append]
    cases hf : List.findSome? pv l.reverse with
    | some v => simp [hf, Option.or]
    | none =>
      simp [hf, Option.or, hstep, List.findSome?]
      cases pv p <;> rfl

theorem stepTag_role_mono (acc : TagsAcc) (p : Str) (i : Nat)
    (h : acc.role.testBit i = true) : (stepTag acc p).role.testBit i = true := by
  cases hs : splitOnce '=' p with
  | none =>
    simp only [stepTag, hs]
    exact h
  | some kv =>
    obtain ⟨k, v⟩ := kv
    simp only [stepTag, hs]
    split_ifs <;> simp [Nat.testBit_lor, h]

theorem foldl_stepTag_role_mono (l : List Str) (acc : TagsAcc) (i : Nat)
    (h : acc.role.testBit i = true) :
    ((l.foldl stepTag acc).role.testBit i) = true := by
  induction l generalizing acc with
  | nil => exact h
  | cons p l ih =>
    simp only [List.foldl_cons]
    exact ih _ (stepTag_role_mono acc p i h)

theorem stepTag_mod_sets (acc : TagsAcc) (p : Str)
    (h : pairValue "mod".data p = some "1".data) :
    (stepTag acc p).role.testBit 2 = true := by
  unfold pairValue at h
  cases hs : splitOnce '=' p with
  | none => rw [hs] at h; simp at h
  | some kv =>
    obtain ⟨k, v⟩ := kv
    simp only [hs] at h
    by_cases hk : k = "mod".data
    · rw [if_pos hk] at h
      have hv : v = "1".data := by simpa using h
      subst hk
      subst hv
      simp only [stepTag, hs]
      split_ifs <;> first | (simp [Nat.testBit_lor]; exact Or.inr (by decide)) | simp_all
    · rw [if_neg hk] at h
      simp at h

theorem stepTag_sub_sets (acc : TagsAcc) (p : Str)
    (h : pairValue "subscriber".data p = some "1".data) :
    (stepTag acc p).role.testBit 0 = true := by
  unfold pairValue at h
  cases hs : splitOnce '=' p with
  | none => rw [hs] at h; simp at h
  | some kv =>
    obtain ⟨k, v⟩ := kv
    simp only [hs] at h
    by_cases hk : k = "subscriber".data
    · rw [if_pos hk] at h
      have hv : v = "1".data := by simpa using h
      subst hk
      subst hv
      simp only [stepTag, hs]
      split_ifs <;> first | (simp [Nat.testBit_lor]; exact Or.inr (by decide)) | simp_all
    · rw [if_neg hk] at h
      simp at h

theorem foldl_stepTag_mod (l : List Str) (acc : TagsAcc) (p : Str) (hp : p ∈ l)
    (h : pairValue "mod".data p = some "1".data) :
    ((l.foldl stepTag acc).role.testBit 2) = true := by
  induction l generalizing acc with
  | nil => cases hp
  | cons q l ih =>
    simp only [List.foldl_cons]
    rcases List.mem_cons.mp hp with hq | hq
    · subst hq
      exact foldl_stepTag_role_mono l _ 2 (stepTag_mod_sets acc p h)
    · exact ih _ hq

theorem foldl_stepTag_sub (l : List Str) (acc : TagsAcc) (p : Str) (hp : p ∈ l)
    (h : pairValue "subscriber".data p = some "1".data) :
    ((l.foldl stepTag acc).role.testBit 0) = true := by
  induction l generalizing acc with
  | nil => cases hp
  | cons q l ih =>
    simp only [List.foldl_cons]
    rcases List.mem_cons.mp hp with hq | hq
    · subst hq
      exact foldl_stepTag_role_mono l _ 0 (stepTag_sub_sets acc p h)
    · exact ih _ hq

/-- C6.  Tag decoding: the parsed user id is the (last) user-id tag value,
"0" when absent; the display name is the last non-empty display-name
value, or else the last login value, or else "anon"; a mod=1 pair adds the
moderator bit and a subscriber=1 pair adds the subscriber bit; and the
literal cases of the claim hold, including display-name=;login=mylogin
giving "mylogin" and the absence of both names giving "anon". -/
theorem parse_tags_decoding (tags : Str) :
    (parse_tags tags).user_id = (lastTagValue "user-id".data tags).getD "0".data ∧
    (parse_tags tags).display_name =
      ((lastTagValueNE "display-name".data tags).or
        (lastTagValue "login".data tags)).getD "anon".data ∧
    (∀ p ∈ splitOnChar ';' tags, pairValue "mod".data p = some "1".data →
      (parse_tags tags).role.testBit 2 = true) ∧
    (∀ p ∈ splitOnChar ';' tags, pairValue "subscriber".data p = some "1".data →
      (parse_tags tags).role.testBit 0 = true) ∧
    (parse_tags "mod=1".data).role = TwitchRole.MODERATOR ∧
    (parse_tags "badges=broadcaster/1;mod=1".data).role.testBit 3 = true ∧
    (parse_tags "badges=broadcaster/1;mod=1".data).role.testBit 2 = true ∧
    (parse_tags "user-id=789".data).user_id = "789".data ∧
    (parse_tags "user-id=789".data).display_name = "anon".data ∧
    (parse_tags "display-name=;login=mylogin".data).display_name = "mylogin".data ∧
    (parse_tags []).user_id = "0".data ∧
    (parse_tags []).display_name = "anon".data := by
  have hu : (parse_tags tags).user_id =
      (lastTagValue "user-id".data tags).getD "0".data := by
    by_cases h0 : tags = []
    · subst h0
      decide
    · unfold parse_tags
      rw [if_neg h0]
      exact foldl_stepTag_val TagsAcc.user_id (pairValue "user-id".data)
        stepTag_user_id _ _
  have hd : (parse_tags tags).display_name =
      ((lastTagValueNE "display-name".data tags).or
        (lastTagValue "login".data tags)).getD "anon".data := by
    by_cases h0 : tags = []
    · subst h0
      decide
    · unfold parse_tags
      rw [if_neg h0]
      show ((List.foldl stepTag ⟨"0".data, none, none, 0⟩ (splitOnChar ';' tags)).dn.or
        (List.foldl stepTag ⟨"0".data, none, none, 0⟩ (splitOnChar ';' tags)).login).getD
          "anon".data = _
      rw [foldl_stepTag_opt TagsAcc.dn (pairValueNE "display-name".data) stepTag_dn,
        foldl_stepTag_opt TagsAcc.login (pairValue "login".data) stepTag_login]
      simp [lastTagValueNE, lastTagValue, Option.or_none]
  have hm : ∀ p ∈ splitOnChar ';' tags, pairValue "mod".data p = some "1".data →
      (parse_tags tags).role.testBit 2 = true := by
    intro p hp hv
    by_cases h0 : tags = []
    · subst h0
      have hp0 : p = [] := by simpa [splitOnChar, splitOnPred] using hp
      subst hp0
      simp [pairValue, splitOnce] at hv
    · unfold parse_tags
      rw [if_neg h0]
      exact foldl_stepTag_mod _ _ p hp hv
  have hsb : ∀ p ∈ splitOnChar ';' tags, pairValue "subscriber".data p = some "1".data →
      (parse_tags tags).role.testBit 0 = true := by
    intro p hp hv
    by_cases h0 : tags = []
    · subst h0
      have hp0 : p = [] := by simpa [splitOnChar, splitOnPred] using hp
      subst hp0
      simp [pairValue, splitOnce] at hv
    · unfold parse_tags
      rw [if_neg h0]
      exact foldl_stepTag_sub _ _ p hp hv
  exact ⟨hu, hd, hm, hsb, by decide, by decide, by decide, by decide, by decide,
    by decide, by decide, by decide⟩

theorem parse_tags_decoding_witness :
    (parse_tags "mod=1;subscriber=1".data).role.testBit 2 = true ∧
    (parse_tags "mod=1;subscriber=1".data).role.testBit 0 = true :=
  ⟨(parse_tags_decoding "mod=1;subscriber=1".data).2.2.1 "mod=1".data
      (by decide) (by decide),
   (parse_tags_decoding "mod=1;subscriber=1".data).2.2.2.1 "subscriber=1".data
      (by decide) (by decide)⟩
